import Mathlib

/-!
Verification of the audpbx streaming audio pipeline.

This file gives a shallow embedding of the core audio-processing code of the
repository and proves (or refutes) the specified properties about it:

* `utils/float_to_int.go`    — `Float32ToInt16` (the quantizer)
* `utils/cubic_interpolate.go` — `CubicInterpolate` (Catmull-Rom evaluation)
* `audio/resampler.go`       — `Resampler` (4-frame window, anti-alias filter)
* `audio/mono_mixer.go`      — `MonoMixer` (channel averaging)
* `audio/do_resample.go`     — `ResampleToMono16` (the pipeline driver)
* `audio/mock_test.go`       — `mockSource` (deterministic test source)

Modelling conventions:

* Sample values are rationals (`ℚ`).  Where a claim is about the exact
  float32 evaluation, operations go through `round32`, an executable model
  of IEEE-754 binary32 round-to-nearest-even with unbounded exponent (it
  agrees with real float32 arithmetic on the whole normal range; overflow,
  subnormals and NaN do not occur at any input used in the theorems below).
  Where a claim is about algorithmic values "within floating-point
  tolerance", the arithmetic is embedded exactly over `ℚ`; at every input
  appearing in a concrete trace the corresponding float64/float32
  operations of the source are themselves exact, so the traces are faithful.
* Go slices become `List ℚ`; `copy(dst, src)` becomes `goCopy`.
* The `error` result of `ReadSamples` becomes `Status` (`ok` for a nil
  error, `eof` for `io.EOF`, `invalidDst` for `ErrInvalidDstSize`, `fail`
  for any other error).
* A runtime panic (out-of-range slice write) is modelled by `Option.none`.
-/

set_option maxRecDepth 20000

-- The Batteries rational operations are irreducible by default, which
-- prevents `decide` from evaluating concrete traces; restore the default
-- reducibility inside this file.
attribute [local semireducible] Rat.add Rat.mul Rat.sub Rat.inv Rat.ofScientific

/-- Status result of a `ReadSamples` call: `ok` models a nil Go error,
`eof` models `io.EOF`, `invalidDst` models `ErrInvalidDstSize` from
`audio/errors.go`, and `fail` models any other upstream error. -/
inductive Status where
  | ok
  | eof
  | invalidDst
  | fail
  deriving DecidableEq

/-- Result of Go's built-in `copy(dst, src)`: the first
`min dst.length src.length` elements are replaced by those of `src`, the
rest of `dst` is kept; the length of `dst` is unchanged. -/
def goCopy (dst src : List ℚ) : List ℚ :=
  let k := min dst.length src.length
  src.take k ++ dst.drop k

theorem goCopy_length (dst src : List ℚ) : (goCopy dst src).length = dst.length := by
  simp [goCopy]

theorem goCopy_eq_of_length (dst src : List ℚ) (h : src.length = dst.length) :
    goCopy dst src = src := by
  simp [goCopy, h]

/-! Model of IEEE-754 binary32 rounding (round to nearest, ties to even),
restricted to the normal range: a value is rounded to 24 significant binary
digits, with no bound on the exponent.  This matches real float32 arithmetic
exactly for all values whose magnitude stays inside the normal range
(between `2 ^ (-126)` and `2 ^ 128`), which covers every input used below. -/

/-- Fuelled structural base-2 logarithm (the fuel only makes the recursion
structural; `lg2` always supplies enough). -/
def lg2fuel : ℕ → ℕ → ℕ
  | 0, _ => 0
  | fuel + 1, n => if 2 ≤ n then lg2fuel fuel (n / 2) + 1 else 0

/-- Floor of the base-2 logarithm of a positive natural. -/
def lg2 (n : ℕ) : ℕ := lg2fuel n n

theorem lg2fuel_spec (fuel : ℕ) : ∀ n, n ≤ fuel → 1 ≤ n →
    2 ^ lg2fuel fuel n ≤ n ∧ n < 2 ^ (lg2fuel fuel n + 1) := by
  induction fuel with
  | zero => intro n h1 h2; omega
  | succ fuel ih =>
    intro n hn h1
    by_cases h2 : 2 ≤ n
    · have hdiv : n / 2 ≤ fuel := by omega
      have hdiv1 : 1 ≤ n / 2 := by omega
      obtain ⟨hl, hr⟩ := ih (n / 2) hdiv hdiv1
      have heq : lg2fuel (fuel + 1) n = lg2fuel fuel (n / 2) + 1 := by
        simp [lg2fuel, h2]
      constructor
      · rw [heq, pow_succ]; omega
      · rw [heq, pow_succ (2 : ℕ) (lg2fuel fuel (n / 2) + 1)]; omega
    · have heq : lg2fuel (fuel + 1) n = 0 := by simp [lg2fuel]; omega
      rw [heq]; omega

theorem lg2_spec (n : ℕ) (h : 1 ≤ n) : 2 ^ lg2 n ≤ n ∧ n < 2 ^ (lg2 n + 1) :=
  lg2fuel_spec n n le_rfl h

/-- Floor of the base-2 logarithm of the positive rational `num / den`. -/
def floorLog2 (num den : ℕ) : ℤ :=
  if den ≤ num then (lg2 (num / den) : ℤ)
  else
    let t := lg2 (den / num)
    if num * 2 ^ t = den then -(t : ℤ) else -(t : ℤ) - 1

/-- Round the positive fraction `num / den` to the nearest natural number,
ties to even. -/
def rnHalfEven (num den : ℕ) : ℕ :=
  let n0 := num / den
  let r2 := 2 * (num % den)
  if r2 < den then n0
  else if den < r2 then n0 + 1
  else if n0 % 2 = 0 then n0 else n0 + 1

/-- Round a positive rational to 24 significant binary digits, ties to
even: the significand grid at `a` has spacing `2 ^ (e - 23)` where
`e = ⌊log₂ a⌋`; the result is the nearest grid point `n * 2 ^ (e - 23)`
(written with natural-number powers so that it evaluates fast). -/
def roundPos (a : ℚ) : ℚ :=
  let num := a.num.natAbs
  let den := a.den
  let e : ℤ := floorLog2 num den
  if 0 ≤ 23 - e then
    (rnHalfEven (num * 2 ^ (23 - e).toNat) den : ℚ) / ((2 ^ (23 - e).toNat : ℕ) : ℚ)
  else
    ((rnHalfEven num (den * 2 ^ (e - 23).toNat) * 2 ^ (e - 23).toNat : ℕ) : ℚ)

/-- The float32 rounding function of the model. -/
def round32 (q : ℚ) : ℚ :=
  if 0 < q then roundPos q else if q < 0 then -roundPos (-q) else 0

/-- Float32 addition of the model. -/
def f32add (a b : ℚ) : ℚ := round32 (a + b)

/-- Float32 subtraction of the model. -/
def f32sub (a b : ℚ) : ℚ := round32 (a - b)

/-- Float32 multiplication of the model. -/
def f32mul (a b : ℚ) : ℚ := round32 (a * b)

-- Sanity checks of the rounding model against IEEE-754 binary32.
example : round32 (1 + 1 / 2 ^ 24) = 1 := by decide
example : round32 (1 + 3 / 2 ^ 24) = 1 + 2 / 2 ^ 23 := by decide
example : round32 (3 / 2 + 1 / 2 ^ 23 + 1 / 2 ^ 24) = 3 / 2 + 1 / 2 ^ 22 := by decide
example : round32 (1 / 10) = 13421773 / 134217728 := by decide
example : round32 (-(32767 : ℚ)) = -32767 := by decide
example : round32 (1 / 2 ^ 30) = 1 / 2 ^ 30 := by decide

/-- Embedding of `utils/cubic_interpolate.go` `CubicInterpolate` under the
actual float32 evaluation order of Go (left-associated sums and products,
every operation rounded). -/
def CubicInterpolateF32 (y0 y1 y2 y3 x : ℚ) : ℚ :=
  let a0 := f32add (f32sub (f32add (f32mul (-(1 / 2)) y0) (f32mul (3 / 2) y1))
                           (f32mul (3 / 2) y2)) (f32mul (1 / 2) y3)
  let a1 := f32sub (f32add (f32sub y0 (f32mul (5 / 2) y1)) (f32mul 2 y2))
                   (f32mul (1 / 2) y3)
  let a2 := f32add (f32mul (-(1 / 2)) y0) (f32mul (1 / 2) y2)
  let a3 := y1
  f32add (f32add (f32add (f32mul (f32mul (f32mul a0 x) x) x)
                         (f32mul (f32mul a1 x) x))
                 (f32mul a2 x)) a3

/-- Embedding of `utils/cubic_interpolate.go` `CubicInterpolate` with exact
rational arithmetic (the same polynomial without the per-operation
rounding).  The `Resampler` model below uses this version: for the value
claims proved about it, float rounding is exactly the "floating-point
tolerance" the specification concedes. -/
def CubicInterpolate (y0 y1 y2 y3 x : ℚ) : ℚ :=
  let a0 := -(1 / 2) * y0 + 3 / 2 * y1 - 3 / 2 * y2 + 1 / 2 * y3
  let a1 := y0 - 5 / 2 * y1 + 2 * y2 - 1 / 2 * y3
  let a2 := -(1 / 2) * y0 + 1 / 2 * y2
  let a3 := y1
  a0 * x * x * x + a1 * x * x + a2 * x + a3

/-- Truncation toward zero: Go's conversion from a floating-point value to
an integer type. -/
def truncQ (q : ℚ) : ℤ := if q < 0 then ⌈q⌉ else ⌊q⌋

/-- Embedding of `utils/float_to_int.go` `Float32ToInt16`: clamp to
`[-1, 1]`, multiply by `32767.0` in float32, convert to `int16` by
truncation toward zero.  The result always fits in `int16` (proved below),
so no wrap-around is modelled. -/
def Float32ToInt16 (x : ℚ) : ℤ :=
  let x := if 1 < x then 1 else if x < -1 then -1 else x
  truncQ (round32 (x * 32767))

example : Float32ToInt16 0 = 0 := by decide
example : Float32ToInt16 1 = 32767 := by decide
example : Float32ToInt16 (-1) = -32767 := by decide
example : Float32ToInt16 (1 / 4) = 8191 := by decide
example : Float32ToInt16 2 = 32767 := by decide

/-! Embedding of the streaming stages of `audio/resampler.go`,
`audio/mono_mixer.go`, `audio/mock_test.go` and `audio/do_resample.go`.

A `Source` is modelled by a state type `σ` together with a read function of
type `SrcRead σ`: given the state and the length of the destination buffer,
it returns the new state, the samples written (a list whose length is the
`n` the Go method returns, at most the requested length) and the status. -/

/-- Read function of an upstream source (the `ReadSamples` method of the
`Source` interface). -/
def SrcRead (σ : Type) : Type := σ → ℕ → σ × List ℚ × Status

/-- State of `audio/resampler.go` `Resampler`: the wrapped source, the
rates and their ratio, the channel count, the four-frame interpolation
window `frames[0..3]` with its validity flags `hasFrame[0..3]`, the
fractional position, the EOF flag, and the one-pole anti-alias filter
state.  (`srcBuf` carries no information across calls — every read goes
through `srcBuf[:channels]` and only the `n` returned samples are used —
so it has no field here.) -/
structure Resampler (σ : Type) where
  src : σ
  srcRate : ℕ
  dstRate : ℕ
  ratio : ℚ
  channels : ℕ
  f0 : List ℚ
  f1 : List ℚ
  f2 : List ℚ
  f3 : List ℚ
  h0 : Bool
  h1 : Bool
  h2 : Bool
  h3 : Bool
  pos : ℚ
  eof : Bool
  filterState : List ℚ
  useFilter : Bool
  filterAlpha : ℚ

/-- Embedding of `NewResampler`: ratio `srcRate / dstRate`, the one-pole
low-pass filter enabled exactly when downsampling (`ratio > 1`, with
`alpha = 0.5`), empty window, zeroed filter state. -/
def NewResampler (src : σ) (srcRate dstRate channels : ℕ) : Resampler σ :=
  let ratio : ℚ := (srcRate : ℚ) / (dstRate : ℚ)
  let useFilter : Bool := if 1 < ratio then true else false
  { src := src
    srcRate := srcRate
    dstRate := dstRate
    ratio := ratio
    channels := channels
    f0 := List.replicate channels 0
    f1 := List.replicate channels 0
    f2 := List.replicate channels 0
    f3 := List.replicate channels 0
    h0 := false
    h1 := false
    h2 := false
    h3 := false
    pos := 0
    eof := false
    filterState := List.replicate channels 0
    useFilter := useFilter
    filterAlpha := if useFilter then 1 / 2 else 0 }

/-- The body of `Resampler.fetchNextFrame` up to the error handling:
shift the window down by one, read one frame from the source into
`frames[3]`, apply the one-pole filter to it when downsampling.  Returns
the updated state together with the source's status. -/
def Resampler.fetchFrame (rd : SrcRead σ) (r : Resampler σ) : Resampler σ × Status :=
  let r1 : Resampler σ :=
    { r with
      f0 := goCopy r.f0 r.f1
      f1 := goCopy r.f1 r.f2
      f2 := goCopy r.f2 r.f3
      h0 := r.h1
      h1 := r.h2
      h2 := r.h3 }
  let q := rd r1.src r1.channels
  let r2 : Resampler σ :=
    if 0 < q.2.1.length then
      let nf := goCopy r1.f3 q.2.1
      if r1.useFilter then
        let filtered := List.zipWith
          (fun x y => r1.filterAlpha * x + (1 - r1.filterAlpha) * y)
          nf r1.filterState
        { r1 with src := q.1, f3 := filtered, h3 := true, filterState := filtered }
      else { r1 with src := q.1, f3 := nf, h3 := true }
    else { r1 with src := q.1, h3 := false }
  (r2, q.2.2)

/-- Embedding of `Resampler.fetchNextFrame`: answer EOF at once when the
EOF flag is set; otherwise run `fetchFrame` and translate the source's
status exactly as the Go code does (an EOF with data is not yet an error;
an EOF without data is; any other error is passed through). -/
def Resampler.fetchNextFrame (rd : SrcRead σ) (r : Resampler σ) :
    Resampler σ × Option Status :=
  if r.eof then (r, some .eof)
  else
    let p := Resampler.fetchFrame rd r
    match p.2 with
    | Status.eof =>
      let r3 := { p.1 with eof := true }
      if r3.h3 then (r3, none) else (r3, some .eof)
    | Status.ok => (p.1, none)
    | e => (p.1, some e)

theorem fetchFrame_pos (rd : SrcRead σ) (r : Resampler σ) :
    (Resampler.fetchFrame rd r).1.pos = r.pos := by
  unfold Resampler.fetchFrame
  dsimp only
  split
  · split <;> rfl
  · rfl

theorem fetchNextFrame_pos (rd : SrcRead σ) (r : Resampler σ) :
    (Resampler.fetchNextFrame rd r).1.pos = r.pos := by
  unfold Resampler.fetchNextFrame
  dsimp only
  split
  · rfl
  · split
    · next heq =>
      split <;> simpa using fetchFrame_pos rd r
    · simpa using fetchFrame_pos rd r
    · simpa using fetchFrame_pos rd r

/-- Embedding of the inner `for r.pos >= 1.0` loop of
`Resampler.ReadSamples`: while `pos ≥ 1`, subtract one and advance the
window by one source frame; a failed advance exits the call.  The loop
runs at most `⌈pos⌉` times because every iteration lowers `pos` by exactly
one (`fetchNextFrame` never touches `pos`), so the `fuel` parameter, which
only makes the recursion structural, never runs out when `ReadSamples`
passes `⌈pos⌉`; `advanceLoop_faithful` below proves the fuel-exhaustion
case unreachable in that sense. -/
def Resampler.advanceLoop (rd : SrcRead σ) : ℕ → Resampler σ → Resampler σ × Option Status
  | 0, r => (r, none)
  | fuel + 1, r =>
    if 1 ≤ r.pos then
      let p := Resampler.fetchNextFrame rd { r with pos := r.pos - 1 }
      match p.2 with
      | some e => (p.1, some e)
      | none => Resampler.advanceLoop rd fuel p.1
    else (r, none)

theorem advanceLoop_faithful (rd : SrcRead σ) (fuel : ℕ) :
    ∀ r : Resampler σ, ⌈r.pos⌉.toNat ≤ fuel →
      (Resampler.advanceLoop rd fuel r).2 = none →
      (Resampler.advanceLoop rd fuel r).1.pos < 1 := by
  induction fuel with
  | zero =>
    intro r hfuel _
    have : (⌈r.pos⌉ : ℤ) ≤ 0 := by omega
    have : r.pos ≤ 0 := by exact_mod_cast Int.ceil_le.mp (by exact_mod_cast this)
    simpa [Resampler.advanceLoop] using lt_of_le_of_lt this one_pos
  | succ fuel ih =>
    intro r hfuel hnone
    by_cases hpos : 1 ≤ r.pos
    · have hfp : (Resampler.fetchNextFrame rd { r with pos := r.pos - 1 }).1.pos
          = r.pos - 1 := fetchNextFrame_pos rd _
      rcases hq : (Resampler.fetchNextFrame rd { r with pos := r.pos - 1 }).2 with _ | e
      · have hrw : Resampler.advanceLoop rd (fuel + 1) r
            = Resampler.advanceLoop rd fuel
                (Resampler.fetchNextFrame rd { r with pos := r.pos - 1 }).1 := by
          simp only [Resampler.advanceLoop, if_pos hpos]
          rw [hq]
        rw [hrw] at hnone ⊢
        apply ih _ _ hnone
        rw [hfp]
        have h1 : ⌈r.pos - 1⌉ = ⌈r.pos⌉ - 1 := by
          exact_mod_cast Int.ceil_sub_int r.pos 1
        have h2 : (1 : ℤ) ≤ ⌈r.pos⌉ := by
          have := Int.le_ceil r.pos
          have : (1 : ℚ) ≤ (⌈r.pos⌉ : ℚ) := le_trans hpos this
          exact_mod_cast this
        omega
      · have hrw : Resampler.advanceLoop rd (fuel + 1) r
            = ((Resampler.fetchNextFrame rd { r with pos := r.pos - 1 }).1, some e) := by
          simp only [Resampler.advanceLoop, if_pos hpos]
          rw [hq]
        rw [hrw] at hnone
        simp at hnone
    · push_neg at hpos
      simpa [Resampler.advanceLoop, if_neg (not_le.mpr hpos)] using hpos

/-- One output frame of `Resampler.ReadSamples`: per channel, pick the four
window samples (duplicating the edge frames when `hasFrame[0]` or
`hasFrame[3]` is unset) and evaluate the Catmull-Rom interpolation at the
fractional position.  (`alpha := float32(r.pos)` is modelled exactly; at
every concrete trace below `pos` is a small dyadic value, where the
float32 conversion is the identity.) -/
def Resampler.interpFrame (r : Resampler σ) : List ℚ :=
  (List.range r.channels).map fun c =>
    let y0 := if r.h0 then r.f0.getD c 0 else r.f1.getD c 0
    let y1 := r.f1.getD c 0
    let y2 := r.f2.getD c 0
    let y3 := if r.h3 then r.f3.getD c 0 else r.f2.getD c 0
    CubicInterpolate y0 y1 y2 y3 r.pos

/-- Embedding of the main `for written < framesNeeded` loop of
`Resampler.ReadSamples` (the recursion counts the output frames still
needed): advance the window while `pos ≥ 1`, stop with EOF when frames 1
and 2 of the window are not both valid, otherwise emit one interpolated
frame and add `ratio` to the position.  The samples produced so far are
returned together with the status, exactly as the Go code returns
`written * channels` alongside its error. -/
def Resampler.produceLoop (rd : SrcRead σ) : ℕ → Resampler σ → Resampler σ × List ℚ × Status
  | 0, r => (r, [], .ok)
  | n + 1, r =>
    let a := Resampler.advanceLoop rd ⌈r.pos⌉.toNat r
    match a.2 with
    | some e => (a.1, [], e)
    | none =>
      let r1 := a.1
      if r1.h1 && r1.h2 then
        let frame := Resampler.interpFrame r1
        let rest := Resampler.produceLoop rd n { r1 with pos := r1.pos + r1.ratio }
        (rest.1, frame ++ rest.2.1, rest.2.2)
      else (r1, [], .eof)

/-- Iteration `i = 0` of the priming loop of `Resampler.ReadSamples`:
read one frame; when data arrives, copy it into `frames[0]`, mark the
slot valid and seed the filter state (the `i == 0 && r.useFilter`
branch).  Returns the new state and the source's raw status. -/
def Resampler.prime0 (rd : SrcRead σ) (r : Resampler σ) : Resampler σ × Status :=
  let q := rd r.src r.channels
  (if 0 < q.2.1.length then
      { r with
        src := q.1
        f0 := goCopy r.f0 q.2.1
        h0 := true
        filterState := if r.useFilter then goCopy r.filterState q.2.1 else r.filterState }
    else { r with src := q.1 }, q.2.2)

/-- Iteration `i = 1` of the priming loop: read one frame into
`frames[1]`. -/
def Resampler.prime1 (rd : SrcRead σ) (r : Resampler σ) : Resampler σ × Status :=
  let q := rd r.src r.channels
  (if 0 < q.2.1.length then
      { r with src := q.1, f1 := goCopy r.f1 q.2.1, h1 := true }
    else { r with src := q.1 }, q.2.2)

/-- Iteration `i = 2` of the priming loop: read one frame into
`frames[2]`. -/
def Resampler.prime2 (rd : SrcRead σ) (r : Resampler σ) : Resampler σ × Status :=
  let q := rd r.src r.channels
  (if 0 < q.2.1.length then
      { r with src := q.1, f2 := goCopy r.f2 q.2.1, h2 := true }
    else { r with src := q.1 }, q.2.2)

/-- Iteration `i = 3` of the priming loop: read one frame into
`frames[3]`. -/
def Resampler.prime3 (rd : SrcRead σ) (r : Resampler σ) : Resampler σ × Status :=
  let q := rd r.src r.channels
  (if 0 < q.2.1.length then
      { r with src := q.1, f3 := goCopy r.f3 q.2.1, h3 := true }
    else { r with src := q.1 }, q.2.2)

/-- EOF at priming iteration 1: set the EOF flag and duplicate
`frames[0]` into the remaining slots (the Go loop `for j := i; j < 4`
copies `frames[i-1]`, overwriting whatever iteration 1 read). -/
def Resampler.dup1 (r : Resampler σ) : Resampler σ :=
  { r with
    eof := true
    f1 := goCopy r.f1 r.f0
    f2 := goCopy r.f2 r.f0
    f3 := goCopy r.f3 r.f0
    h1 := true
    h2 := true
    h3 := true }

/-- EOF at priming iteration 2: duplicate `frames[1]` into slots 2 and
3. -/
def Resampler.dup2 (r : Resampler σ) : Resampler σ :=
  { r with
    eof := true
    f2 := goCopy r.f2 r.f1
    f3 := goCopy r.f3 r.f1
    h2 := true
    h3 := true }

/-- EOF at priming iteration 3: duplicate `frames[2]` into slot 3. -/
def Resampler.dup3 (r : Resampler σ) : Resampler σ :=
  { r with eof := true, f3 := goCopy r.f3 r.f2, h3 := true }

/-- Embedding of the window-priming block of `Resampler.ReadSamples` (the
`if !r.hasFrame[1]` branch): pull up to four frames through
`prime0` .. `prime3`; on EOF at the first frame fail with EOF; on EOF
later, duplicate the last valid frame into the remaining slots and
continue; on any other error fail with it.  Returns the new state and
`some e` exactly when the Go code would `return 0, err`. -/
def Resampler.prime (rd : SrcRead σ) (r : Resampler σ) : Resampler σ × Option Status :=
  let p0 := Resampler.prime0 rd r
  match p0.2 with
  | Status.eof => ({ p0.1 with eof := true }, some .eof)
  | Status.ok =>
    let p1 := Resampler.prime1 rd p0.1
    match p1.2 with
    | Status.eof => (Resampler.dup1 p1.1, none)
    | Status.ok =>
      let p2 := Resampler.prime2 rd p1.1
      match p2.2 with
      | Status.eof => (Resampler.dup2 p2.1, none)
      | Status.ok =>
        let p3 := Resampler.prime3 rd p2.1
        match p3.2 with
        | Status.eof => (Resampler.dup3 p3.1, none)
        | Status.ok => (p3.1, none)
        | e => (p3.1, some e)
      | e => (p2.1, some e)
    | e => (p1.1, some e)
  | e => (p0.1, some e)

/-- Embedding of `Resampler.ReadSamples`: reject a buffer length that is
not a multiple of the channel count with `ErrInvalidDstSize` before any
state change; prime the window on first use; then produce
`dstLen / channels` output frames. -/
def Resampler.ReadSamples (rd : SrcRead σ) (r : Resampler σ) (dstLen : ℕ) :
    Resampler σ × List ℚ × Status :=
  if dstLen % r.channels ≠ 0 then (r, [], .invalidDst)
  else
    let p := if r.h1 then (r, none) else Resampler.prime rd r
    match p.2 with
    | some e => (p.1, [], e)
    | none => Resampler.produceLoop rd (dstLen / r.channels) p.1

/-- State of `audio/mock_test.go` `mockSource`: sample rate, channel
count, total frames to generate, frames generated so far, and the waveform
function (sample index, channel ↦ value). -/
structure MockSource where
  sampleRate : ℕ
  channels : ℕ
  totalSamples : ℕ
  generated : ℕ
  waveform : ℕ → ℕ → ℚ

/-- Embedding of `mockSource.ReadSamples`: immediately EOF when all frames
were generated; otherwise write `min (len(dst)/channels) available` whole
frames of the waveform and report EOF together with the data when the last
frame was just produced. -/
def MockSource.ReadSamples (m : MockSource) (dstLen : ℕ) : MockSource × List ℚ × Status :=
  if m.totalSamples ≤ m.generated then (m, [], .eof)
  else
    let framesRequested := dstLen / m.channels
    let framesAvailable := m.totalSamples - m.generated
    let framesToWrite := min framesRequested framesAvailable
    let vals := ((List.range framesToWrite).map fun frame =>
      (List.range m.channels).map fun ch => m.waveform (m.generated + frame) ch).flatten
    let m' := { m with generated := m.generated + framesToWrite }
    if m.totalSamples ≤ m'.generated then (m', vals, .eof) else (m', vals, .ok)

/-- State of `audio/mono_mixer.go` `MonoMixer`: the wrapped source and the
scratch buffer.  The scratch buffer's contents are never read before being
overwritten (the averaging loop reads only `tmp[0..n)`, which the upstream
read just filled), so only its length is modelled. -/
structure MonoMixer (σ : Type) where
  src : σ
  tmpLen : ℕ

/-- Embedding of `NewMonoMixer`: scratch buffer of 4096 samples. -/
def NewMonoMixer (src : σ) : MonoMixer σ :=
  { src := src, tmpLen := 4096 }

/-- Embedding of `MonoMixer.ReadSamples` for an upstream with
`srcChannels` channels: empty buffer is a no-op; a mono upstream is passed
through; otherwise grow the scratch buffer when it is smaller than
`len(dst) * channels`, read the whole scratch buffer from upstream
(`m.src.ReadSamples(m.tmp)` — the entire slice, not just the part `dst`
needs), and average each of the `n / channels` received frames into
`dst[f]`.  The write `dst[f]` panics when `f ≥ len(dst)`, which the model
returns as `none`. -/
def MonoMixer.ReadSamples (rd : SrcRead σ) (srcChannels : ℕ) (m : MonoMixer σ)
    (dstLen : ℕ) : Option (MonoMixer σ × List ℚ × Status) :=
  if dstLen = 0 then some (m, [], .ok)
  else if srcChannels = 1 then
    let q := rd m.src dstLen
    some ({ m with src := q.1 }, q.2.1, q.2.2)
  else
    let tmpLen := if m.tmpLen < dstLen * srcChannels then dstLen * srcChannels else m.tmpLen
    let q := rd m.src tmpLen
    let n := q.2.1.length
    let m' : MonoMixer σ := { src := q.1, tmpLen := tmpLen }
    if n = 0 then some (m', [], q.2.2)
    else
      let frames := n / srcChannels
      if dstLen < frames then none
      else
        some (m', (List.range frames).map fun f =>
          (((List.range srcChannels).map fun c => q.2.1.getD (f * srcChannels + c) 0).sum)
            / (srcChannels : ℚ), q.2.2)

/-- The read function a `MonoMixer` wrapped around a `Resampler` uses:
`Resampler.ReadSamples` itself, so chained stages compose exactly as in
`ResampleToMono16`. -/
def resamplerRead (rd : SrcRead σ) : SrcRead (Resampler σ) :=
  fun r n => Resampler.ReadSamples rd r n

/-- The collection loop of `ResampleToMono16`: read a chunk from the mono
mixer, quantize every received sample and append it, stop at EOF (keeping
the converted samples and returning a nil error, as the Go loop breaks and
returns), abort on any other error with an empty result.  `fuel` bounds
the number of loop iterations (each theorem below supplies more than the
trace needs); `none` propagates a panic from the mixer. -/
def collectLoop (rd : SrcRead σ) (srcChannels bufferSize : ℕ) :
    ℕ → MonoMixer (Resampler σ) → List ℤ → Option (List ℤ × Status)
  | 0, _, _ => none
  | fuel + 1, m, acc =>
    match MonoMixer.ReadSamples (resamplerRead rd) srcChannels m bufferSize with
    | none => none
    | some (m', vals, st) =>
      let acc' := acc ++ vals.map Float32ToInt16
      match st with
      | Status.ok => collectLoop rd srcChannels bufferSize fuel m' acc'
      | Status.eof => some (acc', .ok)
      | e => some ([], e)

/-- Embedding of `audio/do_resample.go` `ResampleToMono16`: build the
pipeline `NewResampler` → `NewMonoMixer`, drain it through `collectLoop`,
and return the quantized samples with the target rate. -/
def ResampleToMono16 (rd : SrcRead σ) (src : σ) (srcRate srcChannels targetRate : ℕ)
    (bufferSize fuel : ℕ) : Option (List ℤ × ℕ × Status) :=
  let resampler := NewResampler src srcRate targetRate srcChannels
  let mono := NewMonoMixer resampler
  match collectLoop rd srcChannels bufferSize fuel mono [] with
  | none => none
  | some (pcm16, st) => some (pcm16, targetRate, st)

/-! Concrete traces.  `constMock channels total value` is the
`newConstantSource` of `audio/mock_test.go`: a mock source producing
`total` frames, every sample equal to `value`. -/

/-- Constant mock source (embedding of `newConstantSource`). -/
def constMock (channels total : ℕ) (value : ℚ) : MockSource :=
  { sampleRate := 48000
    channels := channels
    totalSamples := total
    generated := 0
    waveform := fun _ _ => value }

/-- The mock source's read function, as a `SrcRead`. -/
def mockRead : SrcRead MockSource := fun s n => MockSource.ReadSamples s n

/-- State of a resampler after `n` successive `ReadSamples` calls, each
with a buffer of `dstLen` samples. -/
def Resampler.callSeq (rd : SrcRead σ) (dstLen : ℕ) (r : Resampler σ) : ℕ → Resampler σ
  | 0 => r
  | n + 1 => (Resampler.ReadSamples rd (Resampler.callSeq rd dstLen r n) dstLen).1

/-- Samples and status returned by the `n`-th `ReadSamples` call (counted
from 1) in that same sequence. -/
def Resampler.callOut (rd : SrcRead σ) (dstLen : ℕ) (r : Resampler σ) (n : ℕ) :
    List ℚ × Status :=
  (Resampler.ReadSamples rd (Resampler.callSeq rd dstLen r (n - 1)) dstLen).2

/-- A 48000 Hz mono constant source of 4 frames, resampled to 8000 Hz
(ratio 6, filter active); every float64/float32 operation of the source is
exact at these values, so the rational trace coincides with the Go one. -/
def traceResampler : Resampler MockSource :=
  NewResampler (constMock 1 4 (1 / 4)) 48000 8000 1

-- The whole eight-call trace, as a sanity check: call 1 produces one
-- sample, calls 2 through 7 return (0, EOF), call 8 produces a sample
-- again.
example :
    (List.range 8).map (fun k => Resampler.callOut mockRead 1 traceResampler (k + 1)) =
      [([1 / 4], .ok), ([], .eof), ([], .eof), ([], .eof), ([], .eof), ([], .eof),
        ([], .eof), ([1 / 4], .ok)] := by decide

/-- C1: "Exhaustion is permanent for every streaming stage: once some call
has returned (0, exhausted/io.EOF), every subsequent ReadSamples call
returns (0, exhausted/io.EOF) and produces no further samples."  The code
violates this: on the 4-frame constant source at ratio 6, the second call
returns `(0, io.EOF)`, yet the eighth call returns one sample with a nil
error — after a failed window advance the position was decremented without
a source frame having been consumed, and once it drops below 1 the stale
window produces samples again (and does so forever). -/
theorem C1_eof_not_permanent_trace :
    Resampler.callOut mockRead 1 traceResampler 2 = ([], Status.eof) ∧
      Resampler.callOut mockRead 1 traceResampler 8 = ([1 / 4], Status.ok) := by
  constructor <;> decide

/-- The logical fractional cursor of claim C9: the stored fractional
position plus the number of source frames consumed so far (the mock
source's `generated` counter). -/
def logicalCursor (r : Resampler MockSource) : ℚ :=
  r.pos + (r.src.generated : ℚ)

/-- C9: "the logical fractional cursor — stored fractional position plus
source frames consumed — never decreases across any sequence of
ReadSamples calls."  The code violates this: on the 4-frame constant
source at ratio 6 the cursor is 10 after the first call (pos 6, 4 frames
consumed) and 9 after the second (`pos -= 1.0` ran before a window advance
that failed at EOF and consumed nothing). -/
theorem C9_cursor_regresses_trace :
    logicalCursor (Resampler.callSeq mockRead 1 traceResampler 1) = 10 ∧
      logicalCursor (Resampler.callSeq mockRead 1 traceResampler 2) = 9 ∧
      logicalCursor (Resampler.callSeq mockRead 1 traceResampler 2)
        < logicalCursor (Resampler.callSeq mockRead 1 traceResampler 1) := by
  refine ⟨by decide, by decide, by decide⟩

-- Sanity check of the mixer: four stereo frames fit into a destination of
-- four mono samples, each the average of its frame.
example :
    MonoMixer.ReadSamples mockRead 2 (NewMonoMixer (constMock 2 4 (1 / 2))) 4 =
      some ({ src := { constMock 2 4 (1 / 2) with generated := 4 }, tmpLen := 4096 },
        [1 / 2, 1 / 2, 1 / 2, 1 / 2], .eof) := by
  constructor

/-- C2: "MonoMixer.ReadSamples pulls exactly len(dst) frames × C samples
from upstream (no more) and never indexes dst out of bounds, for any
combination of dst length and scratch-buffer size."  The code violates
this: it reads the whole scratch buffer (`m.src.ReadSamples(m.tmp)`, 4096
samples here) instead of the `len(dst) * C = 200` samples `dst` can
absorb; with 101 stereo frames available upstream it receives 101 frames
and writes `dst[100]`, out of range for the 100-sample destination —
a panic, `none` in the model. -/
theorem C2_monomixer_overruns_dst :
    (MonoMixer.ReadSamples mockRead 2 (NewMonoMixer (constMock 2 101 (1 / 2))) 100).isNone
      = true := by
  decide

/-- C3: "the chunk size never changes the result of ResampleToMono16."
The code violates this through the mixer defect of C2: for a stereo
constant source of 120 frames at 8000 Hz resampled to 8000 Hz, a buffer of
4096 samples drains the pipeline normally (a `some` result), while a
buffer of 100 samples panics inside `MonoMixer.ReadSamples` (the mixer
reads its whole 4096-sample scratch buffer, receives 117 frames from the
resampler and writes `dst[100]` out of range) — `none` in the model, so
the two runs do not return the same samples, rate and status. -/
theorem C3_buffer_size_changes_result :
    (ResampleToMono16 mockRead (constMock 2 120 (1 / 4)) 8000 2 8000 4096 10).isSome
        = true ∧
      (ResampleToMono16 mockRead (constMock 2 120 (1 / 4)) 8000 2 8000 100 10).isNone
        = true := by
  refine ⟨by decide, by decide⟩

/-! Bounds on the rounding model, used for the quantizer range claim. -/

theorem rnHalfEven_le (num den : ℕ) : rnHalfEven num den ≤ num / den + 1 := by
  unfold rnHalfEven
  dsimp only
  split
  · omega
  · split
    · omega
    · split <;> omega

theorem floorLog2_le (num den : ℕ) (hn : 1 ≤ num) (hd : 1 ≤ den) :
    (2 : ℚ) ^ floorLog2 num den ≤ (num : ℚ) / (den : ℚ) := by
  have hdenQ : (0 : ℚ) < (den : ℚ) := by exact_mod_cast hd
  unfold floorLog2
  split
  · next hle =>
    have hq : 1 ≤ num / den := (Nat.one_le_div_iff (by omega)).mpr hle
    obtain ⟨hl, _⟩ := lg2_spec (num / den) hq
    have hnat : (2 : ℚ) ^ lg2 (num / den) ≤ ((num / den : ℕ) : ℚ) := by
      exact_mod_cast hl
    have hcast : ((num / den : ℕ) : ℚ) ≤ (num : ℚ) / (den : ℚ) := Nat.cast_div_le
    calc (2 : ℚ) ^ ((lg2 (num / den) : ℤ)) = (2 : ℚ) ^ lg2 (num / den) := by
          exact zpow_natCast 2 _
      _ ≤ ((num / den : ℕ) : ℚ) := hnat
      _ ≤ (num : ℚ) / (den : ℚ) := hcast
  · next hgt =>
    have hlt : num < den := by omega
    have hq : 1 ≤ den / num := (Nat.one_le_div_iff (by omega)).mpr (by omega)
    obtain ⟨hl, hr⟩ := lg2_spec (den / num) hq
    dsimp only
    set t := lg2 (den / num) with ht
    split
    · next heq =>
      have hden : (num : ℚ) * 2 ^ t = (den : ℚ) := by exact_mod_cast heq
      have hnumQ : (0 : ℚ) < (num : ℚ) := by exact_mod_cast hn
      have hd2 : (num : ℚ) / (den : ℚ) = ((2 : ℚ) ^ t)⁻¹ := by
        rw [← hden]
        rw [eq_comm, inv_eq_iff_eq_inv, eq_comm, inv_div]
        rw [mul_comm, mul_div_assoc, div_self (ne_of_gt hnumQ), mul_one]
      rw [zpow_neg, zpow_natCast, hd2]
    · next hne =>
      -- den < num * 2 ^ (t + 1), so 2 ^ (-t - 1) ≤ num / den
      have hdlt : den < num * 2 ^ (t + 1) := by
        have h1 : den / num < 2 ^ (t + 1) := hr
        have h2 : den < num * (den / num) + num := by
          have := Nat.div_add_mod den num
          have hmod : den % num < num := Nat.mod_lt _ (by omega)
          omega
        have h3 : den / num + 1 ≤ 2 ^ (t + 1) := h1
        calc den < num * (den / num) + num := h2
          _ = num * (den / num + 1) := by ring
          _ ≤ num * 2 ^ (t + 1) := Nat.mul_le_mul_left _ h3
      have hQ : (den : ℚ) < (num : ℚ) * 2 ^ (t + 1) := by exact_mod_cast hdlt
      have : (2 : ℚ) ^ (-(t : ℤ) - 1) = ((2 : ℚ) ^ (t + 1))⁻¹ := by
        rw [show -(t : ℤ) - 1 = -((t : ℤ) + 1) by ring, zpow_neg]
        norm_cast
      rw [this, inv_eq_one_div, div_le_div_iff₀ (by positivity) hdenQ]
      nlinarith [pow_pos (show (0:ℚ) < 2 by norm_num) (t + 1)]

theorem roundPos_range (a : ℚ) (h0 : 0 < a) (h1 : a ≤ 32767) :
    0 ≤ roundPos a ∧ roundPos a < 32768 := by
  have hnum0 : 0 < a.num := Rat.num_pos.mpr h0
  have hnum1 : 1 ≤ a.num.natAbs := by omega
  have hden1 : 0 < a.den := a.pos
  have hdenQ : (0 : ℚ) < (a.den : ℚ) := by exact_mod_cast hden1
  have hzeq : (a.num.natAbs : ℤ) = a.num := Int.natAbs_of_nonneg (le_of_lt hnum0)
  have hnumcast : ((a.num.natAbs : ℕ) : ℚ) = ((a.num : ℤ) : ℚ) := by
    rw [← Int.cast_natCast, hzeq]
  have hfrac : ((a.num.natAbs : ℕ) : ℚ) / ((a.den : ℕ) : ℚ) = a := by
    rw [hnumcast]; exact Rat.num_div_den a
  have hA : (2 : ℚ) ^ floorLog2 a.num.natAbs a.den ≤ a := by
    have h := floorLog2_le a.num.natAbs a.den hnum1 hden1
    rwa [hfrac] at h
  set e := floorLog2 a.num.natAbs a.den with he
  have he14 : e ≤ 14 := by
    by_contra hcon
    push_neg at hcon
    have h15 : (15 : ℤ) ≤ e := by omega
    have : (2 : ℚ) ^ (15 : ℤ) ≤ (2 : ℚ) ^ e :=
      zpow_le_zpow_right₀ (by norm_num) h15
    have h2 : (32768 : ℚ) ≤ a := by
      calc (32768 : ℚ) = (2 : ℚ) ^ (15 : ℤ) := by norm_num
        _ ≤ (2 : ℚ) ^ e := this
        _ ≤ a := hA
    linarith
  have hbranch : 0 ≤ 23 - e := by omega
  have hs9 : 9 ≤ (23 - e).toNat := by omega
  have hroundPos : roundPos a =
      (rnHalfEven (a.num.natAbs * 2 ^ (23 - e).toNat) a.den : ℚ)
        / ((2 ^ (23 - e).toNat : ℕ) : ℚ) := by
    unfold roundPos
    dsimp only
    rw [← he, if_pos hbranch]
  set s := (23 - e).toNat with hsdef
  set n := rnHalfEven (a.num.natAbs * 2 ^ s) a.den with hn
  have hpow : (0 : ℚ) < ((2 ^ s : ℕ) : ℚ) := by positivity
  constructor
  · rw [hroundPos]
    positivity
  · rw [hroundPos]
    have hb1 : (n : ℚ) ≤ ((a.num.natAbs * 2 ^ s / a.den : ℕ) : ℚ) + 1 := by
      exact_mod_cast rnHalfEven_le (a.num.natAbs * 2 ^ s) a.den
    have hb2 : ((a.num.natAbs * 2 ^ s / a.den : ℕ) : ℚ)
        ≤ ((a.num.natAbs * 2 ^ s : ℕ) : ℚ) / ((a.den : ℕ) : ℚ) := Nat.cast_div_le
    have hb3 : ((a.num.natAbs * 2 ^ s : ℕ) : ℚ) / ((a.den : ℕ) : ℚ)
        = a * ((2 ^ s : ℕ) : ℚ) := by
      push_cast
      push_cast at hfrac
      rw [mul_comm, mul_div_assoc, hfrac, mul_comm]
    have hup : (n : ℚ) ≤ a * ((2 ^ s : ℕ) : ℚ) + 1 := by
      calc (n : ℚ) ≤ ((a.num.natAbs * 2 ^ s / a.den : ℕ) : ℚ) + 1 := hb1
        _ ≤ ((a.num.natAbs * 2 ^ s : ℕ) : ℚ) / ((a.den : ℕ) : ℚ) + 1 := by linarith
        _ = a * ((2 ^ s : ℕ) : ℚ) + 1 := by rw [hb3]
    rw [div_lt_iff₀ hpow]
    have h512 : (512 : ℚ) ≤ ((2 ^ s : ℕ) : ℚ) := by
      have : (2 : ℕ) ^ 9 ≤ 2 ^ s := Nat.pow_le_pow_right (by norm_num) hs9
      exact_mod_cast this
    nlinarith

theorem round32_range (q : ℚ) (hlo : -32767 ≤ q) (hhi : q ≤ 32767) :
    -32768 < round32 q ∧ round32 q < 32768 := by
  unfold round32
  split
  · next hq =>
    obtain ⟨h1, h2⟩ := roundPos_range q hq hhi
    constructor <;> linarith
  · split
    · next hq =>
      have hq' : 0 < -q := by linarith
      have hq32 : -q ≤ 32767 := by linarith
      obtain ⟨h1, h2⟩ := roundPos_range (-q) hq' hq32
      constructor <;> linarith
    · norm_num

theorem truncQ_range (w : ℚ) (hlo : -32768 < w) (hhi : w < 32768) :
    -32767 ≤ truncQ w ∧ truncQ w ≤ 32767 := by
  unfold truncQ
  split
  · next hw =>
    constructor
    · have : (-32768 : ℤ) < ⌈w⌉ := by
        rw [Int.lt_ceil]
        exact_mod_cast hlo
      omega
    · have : ⌈w⌉ ≤ 0 := by
        have h0 := Int.ceil_le.mpr (show w ≤ ((0 : ℤ) : ℚ) by exact_mod_cast le_of_lt hw)
        simpa using h0
      omega
  · next hw =>
    push_neg at hw
    constructor
    · have : (0 : ℤ) ≤ ⌊w⌋ := Int.floor_nonneg.mpr hw
      omega
    · have : ⌊w⌋ < (32768 : ℤ) := by
        rw [Int.floor_lt]
        exact_mod_cast hhi
      omega

/-- C10: for every input, the quantizer's output lies in
`[-32767, 32767]`; in particular `-32768` is never produced.  The clamp
bounds the scaled value by `±32767`, the float32 rounding moves it by less
than one grid step `2 ^ (-9)` (so it stays strictly inside `±32768`), and
the truncation toward zero then cannot reach `±32768`. -/
theorem C10_quantizer_range (x : ℚ) :
    -32767 ≤ Float32ToInt16 x ∧ Float32ToInt16 x ≤ 32767 ∧
      Float32ToInt16 x ≠ -32768 := by
  have core : ∀ y : ℚ, -1 ≤ y → y ≤ 1 →
      -32767 ≤ truncQ (round32 (y * 32767)) ∧ truncQ (round32 (y * 32767)) ≤ 32767 := by
    intro y hy1 hy2
    have hlo : -32767 ≤ y * 32767 := by nlinarith
    have hhi : y * 32767 ≤ 32767 := by nlinarith
    obtain ⟨h1, h2⟩ := round32_range (y * 32767) hlo hhi
    exact truncQ_range _ h1 h2
  have main : -32767 ≤ Float32ToInt16 x ∧ Float32ToInt16 x ≤ 32767 := by
    unfold Float32ToInt16
    dsimp only
    split
    · exact ⟨by decide, by decide⟩
    · split
      · exact ⟨by decide, by decide⟩
      · next hgt hlt =>
        push_neg at hgt hlt
        exact core x hlt hgt
  exact ⟨main.1, main.2, by omega⟩

/-- C4 counterexample: the quantizer maps `-1.0` to `-32767`, not
`-32768` — Go's float-to-int conversion truncates `-1.0 * 32767.0 =
-32767.0` to `-32767`, so the claim's third reference point is wrong. -/
theorem C4_quantize_neg_one_counterexample :
    Float32ToInt16 (-1) = -32767 ∧ Float32ToInt16 (-1) ≠ -32768 := by
  refine ⟨by decide, by decide⟩

/-- C4 as amended: the quantizer maps the three reference points to
`quantize(0.0) = 0`, `quantize(1.0) = 32767` and `quantize(-1.0) =
-32767` (scaling by 32767 and truncating toward zero never reaches
`-32768`). -/
theorem C4_quantizer_reference_points :
    Float32ToInt16 0 = 0 ∧ Float32ToInt16 1 = 32767 ∧ Float32ToInt16 (-1) = -32767 := by
  refine ⟨by decide, by decide, by decide⟩

theorem round32_zero : round32 0 = 0 := by
  unfold round32
  norm_num

theorem f32mul_zero (a : ℚ) : f32mul a 0 = 0 := by
  unfold f32mul
  rw [mul_zero, round32_zero]

theorem f32add_zero_left (b : ℚ) : f32add 0 b = round32 b := by
  unfold f32add
  rw [zero_add]

/-- C5 counterexample: under the actual float32 evaluation,
`CubicInterpolate(1, 1, 1 + 2⁻²³, 1, 1)` is `1`, one unit in the last
place below `c = 1 + 2⁻²³` — the intermediate products `1.5 * c` and the
final sum round, and the rounding errors do not cancel, so the `t = 1`
identity is not exact in float32. -/
theorem C5_cubic_t1_not_exact_counterexample :
    CubicInterpolateF32 1 1 (1 + 1 / 2 ^ 23) 1 1 = 1 ∧
      CubicInterpolateF32 1 1 (1 + 1 / 2 ^ 23) 1 1 ≠ 1 + 1 / 2 ^ 23 := by
  refine ⟨by decide, by decide⟩

/-- C5 as amended: at `t = 0` the float32 evaluation returns `b` exactly
(every term of the polynomial except `a3 = b` is multiplied by zero, and
rounding a representable value is the identity); at `t = 1` the identity
`interpolate(a, b, c, d, 1) = c` holds for the exact (real-number)
Catmull-Rom polynomial, but under float32 rounding the result can differ
from `c` by one unit in the last place. -/
theorem C5_cubic_endpoint_values (y0 y1 y2 y3 : ℚ) (hy1 : round32 y1 = y1) :
    CubicInterpolateF32 y0 y1 y2 y3 0 = y1 ∧ CubicInterpolate y0 y1 y2 y3 1 = y2 := by
  constructor
  · simp [CubicInterpolateF32, f32mul_zero, f32add_zero_left, round32_zero, hy1]
  · simp only [CubicInterpolate]
    ring

theorem C5_cubic_endpoint_values_witness :
    round32 (1 / 4) = 1 / 4 ∧
      (CubicInterpolateF32 3 (1 / 4) 5 7 0 = 1 / 4 ∧ CubicInterpolate 3 (1 / 4) 5 7 1 = 5) :=
  ⟨by decide, C5_cubic_endpoint_values 3 (1 / 4) 5 7 (by decide)⟩

/-- C7: a buffer length that is not a multiple of the channel count is
rejected with `ErrInvalidDstSize`, zero samples, and no side effect at
all: the returned state is the argument state itself (window, flags,
position, filter state and EOF flag included) and the upstream source
state inside it is untouched, so a retry with a valid length behaves as if
the failed call never happened. -/
theorem C7_invalid_dst_no_side_effects (rd : SrcRead σ) (r : Resampler σ)
    (dstLen : ℕ) (h : dstLen % r.channels ≠ 0) :
    Resampler.ReadSamples rd r dstLen = (r, [], Status.invalidDst) := by
  unfold Resampler.ReadSamples
  rw [if_pos h]

theorem C7_invalid_dst_no_side_effects_witness :
    7 % (NewResampler (constMock 2 4 (1 / 2)) 48000 8000 2).channels ≠ 0 ∧
      Resampler.ReadSamples mockRead (NewResampler (constMock 2 4 (1 / 2)) 48000 8000 2) 7 =
        (NewResampler (constMock 2 4 (1 / 2)) 48000 8000 2, [], Status.invalidDst) :=
  ⟨by decide, C7_invalid_dst_no_side_effects mockRead _ 7 (by decide)⟩

/-- A fresh resampler over an empty source, used to refute claim C8. -/
def emptySourceResampler : Resampler MockSource :=
  NewResampler (constMock 1 0 0) 48000 48000 1

/-- C8 counterexample: a zero-length read on a fresh `Resampler` is not a
no-op returning `(0, ok)`.  The length check passes (`0 % channels = 0`),
and the unprimed window triggers the priming block even though no output
is wanted: over an empty upstream the call returns `(0, io.EOF)` — not
`(0, ok)` — and flips the resampler's EOF flag, an observable state
change caused by an upstream read. -/
theorem C8_zero_len_not_noop_counterexample :
    (Resampler.ReadSamples mockRead emptySourceResampler 0).2.2 = Status.eof ∧
      (Resampler.ReadSamples mockRead emptySourceResampler 0).1.eof = true ∧
      emptySourceResampler.eof = false := by
  refine ⟨by decide, by decide, by decide⟩

/-- C8 as amended: a zero-length read on a `MonoMixer` is always a no-op
returning `(0, ok)` with no upstream read; on a `Resampler` it is a no-op
returning `(0, ok)` once the interpolation window has been primed
(`hasFrame[1]` set).  On a fresh `Resampler` the call first primes the
window — issuing up to four upstream reads and changing state — and
returns `(0, exhausted)` when the upstream is exhausted at once. -/
theorem C8_zero_len_noop_amended (rd : SrcRead σ) (m : MonoMixer σ)
    (srcChannels : ℕ) (r : Resampler σ) (h : r.h1 = true) :
    MonoMixer.ReadSamples rd srcChannels m 0 = some (m, [], Status.ok) ∧
      Resampler.ReadSamples rd r 0 = (r, [], Status.ok) := by
  constructor
  · simp [MonoMixer.ReadSamples]
  · unfold Resampler.ReadSamples
    rw [if_neg (by simp)]
    simp [h, Resampler.produceLoop, Nat.zero_div]

theorem C8_zero_len_noop_amended_witness :
    (Resampler.callSeq mockRead 1 traceResampler 1).h1 = true ∧
      (MonoMixer.ReadSamples mockRead 2 (NewMonoMixer (constMock 2 4 (1 / 2))) 0
          = some (NewMonoMixer (constMock 2 4 (1 / 2)), [], Status.ok) ∧
        Resampler.ReadSamples mockRead (Resampler.callSeq mockRead 1 traceResampler 1) 0
          = (Resampler.callSeq mockRead 1 traceResampler 1, [], Status.ok)) :=
  ⟨by decide, C8_zero_len_noop_amended mockRead _ 2 _ (by decide)⟩

/-! Claim C6: a constant upstream source yields constant resampler
output.  The invariant below tracks that every valid window frame and the
filter accumulator hold only the constant value. -/

/-- Every sample of the list equals `V`. -/
def AllV (V : ℚ) (l : List ℚ) : Prop := ∀ x ∈ l, x = V

/-- A constant upstream source of value `V` with `ch` channels: every read
with a frame-sized buffer either delivers one whole frame of `V`-samples,
or delivers nothing together with an EOF or error status (a source cannot
answer `ok` with an empty read and a later frame, because its frames are
all there is). -/
def ConstSrc (rd : SrcRead σ) (V : ℚ) (ch : ℕ) : Prop :=
  ∀ s, AllV V (rd s ch).2.1 ∧
    ((rd s ch).2.1.length = ch ∨ ((rd s ch).2.1.length = 0 ∧ (rd s ch).2.2 ≠ Status.ok))

/-- Invariant of the resampler state under a constant source: channel
count fixed, all window rows and the filter accumulator of full length,
every valid window row all-`V`, and — once the window is primed
(`hasFrame[1]`) — the filter accumulator all-`V` as well. -/
structure ConstInv (V : ℚ) (ch : ℕ) (r : Resampler σ) : Prop where
  hch : r.channels = ch
  lf0 : r.f0.length = ch
  lf1 : r.f1.length = ch
  lf2 : r.f2.length = ch
  lf3 : r.f3.length = ch
  lfs : r.filterState.length = ch
  hf0 : r.h0 = true → AllV V r.f0
  hf1 : r.h1 = true → AllV V r.f1
  hf2 : r.h2 = true → AllV V r.f2
  hf3 : r.h3 = true → AllV V r.f3
  hfs : r.useFilter = true → r.h1 = true → AllV V r.filterState

/-- The filter-accumulator side condition carried through the read loops:
when the filter is active the accumulator holds only `V`. -/
def FsAllV (V : ℚ) (r : Resampler σ) : Prop :=
  r.useFilter = true → AllV V r.filterState

theorem allV_zipWith (V : ℚ) (f : ℚ → ℚ → ℚ) (hf : ∀ x y, x = V → y = V → f x y = V) :
    ∀ a b : List ℚ, AllV V a → AllV V b → AllV V (List.zipWith f a b) := by
  intro a
  induction a with
  | nil => intro b _ _; simp [AllV]
  | cons x xs ih =>
    intro b ha hb
    cases b with
    | nil => simp [AllV]
    | cons y ys =>
      intro z hz
      simp only [List.zipWith_cons_cons, List.mem_cons] at hz
      rcases hz with rfl | hz
      · exact hf x y (ha x (by simp)) (hb y (by simp))
      · exact ih ys (fun u hu => ha u (by simp [hu])) (fun u hu => hb u (by simp [hu])) z hz

theorem allV_replicate (V : ℚ) (n : ℕ) : AllV V (List.replicate n V) := by
  intro x hx
  exact List.eq_of_mem_replicate hx

/-- The Catmull-Rom polynomial is exact on constants. -/
theorem cubicInterpolate_const (V x : ℚ) : CubicInterpolate V V V V x = V := by
  unfold CubicInterpolate
  ring

theorem allV_getD (V : ℚ) (l : List ℚ) (h : AllV V l) (c : ℕ) (hc : c < l.length) :
    l.getD c 0 = V := by
  rw [List.getD_eq_getElem l 0 hc]
  exact h _ (List.getElem_mem hc)


theorem constInv_set_eof (V : ℚ) (ch : ℕ) (r : Resampler σ) (b : Bool)
    (h : ConstInv V ch r) : ConstInv V ch { r with eof := b } :=
  ⟨h.hch, h.lf0, h.lf1, h.lf2, h.lf3, h.lfs, h.hf0, h.hf1, h.hf2, h.hf3, h.hfs⟩

theorem fsAllV_set_eof (V : ℚ) (r : Resampler σ) (b : Bool)
    (h : FsAllV V r) : FsAllV V { r with eof := b } := h

theorem fetchFrame_pres (rd : SrcRead σ) (V : ℚ) (ch : ℕ) (hsrc : ConstSrc rd V ch)
    (r : Resampler σ) (inv : ConstInv V ch r) (hfs : FsAllV V r) :
    ConstInv V ch (Resampler.fetchFrame rd r).1 ∧ FsAllV V (Resampler.fetchFrame rd r).1 := by
  obtain ⟨hvals, hlen⟩ := hsrc r.src
  have hch := inv.hch
  have e01 : goCopy r.f0 r.f1 = r.f1 := goCopy_eq_of_length _ _ (by rw [inv.lf0, inv.lf1])
  have e12 : goCopy r.f1 r.f2 = r.f2 := goCopy_eq_of_length _ _ (by rw [inv.lf1, inv.lf2])
  have e23 : goCopy r.f2 r.f3 = r.f3 := goCopy_eq_of_length _ _ (by rw [inv.lf2, inv.lf3])
  unfold Resampler.fetchFrame
  dsimp only
  rw [hch]
  split
  · next hpos =>
    have hv : (rd r.src ch).2.1.length = ch := by
      rcases hlen with h | ⟨h0, _⟩
      · exact h
      · omega
    have e3v : goCopy r.f3 (rd r.src ch).2.1 = (rd r.src ch).2.1 :=
      goCopy_eq_of_length _ _ (by rw [inv.lf3, hv])
    split
    · next huse =>
      have hfsv : AllV V r.filterState := hfs huse
      have hfiltered : AllV V (List.zipWith
          (fun x y => r.filterAlpha * x + (1 - r.filterAlpha) * y)
          (goCopy r.f3 (rd r.src ch).2.1) r.filterState) := by
        apply allV_zipWith V _ (fun x y hx hy => by rw [hx, hy]; ring)
        · rw [e3v]; exact hvals
        · exact hfsv
      have hfilteredLen : (List.zipWith
          (fun x y => r.filterAlpha * x + (1 - r.filterAlpha) * y)
          (goCopy r.f3 (rd r.src ch).2.1) r.filterState).length = ch := by
        rw [List.length_zipWith, goCopy_length, inv.lf3, inv.lfs, min_self]
      refine ⟨⟨rfl, ?_, ?_, ?_, ?_, ?_, ?_, ?_, ?_, ?_, ?_⟩, ?_⟩ <;>
        simp only [e01, e12, e23]
      · exact inv.lf1
      · exact inv.lf2
      · exact inv.lf3
      · exact hfilteredLen
      · exact hfilteredLen
      · exact inv.hf1
      · exact inv.hf2
      · exact inv.hf3
      · intro _; exact hfiltered
      · intro _ _; exact hfiltered
      · intro _; exact hfiltered
    · next huse =>
      refine ⟨⟨rfl, ?_, ?_, ?_, ?_, ?_, ?_, ?_, ?_, ?_, ?_⟩, ?_⟩ <;>
        simp only [e01, e12, e23]
      · exact inv.lf1
      · exact inv.lf2
      · exact inv.lf3
      · rw [e3v, hv]
      · exact inv.lfs
      · exact inv.hf1
      · exact inv.hf2
      · exact inv.hf3
      · intro _; rw [e3v]; exact hvals
      · intro hu _; exact absurd hu (by simpa using huse)
      · intro hu; exact absurd hu (by simpa using huse)
  · refine ⟨⟨rfl, ?_, ?_, ?_, ?_, ?_, ?_, ?_, ?_, ?_, ?_⟩, ?_⟩ <;>
      simp only [e01, e12, e23]
    · exact inv.lf1
    · exact inv.lf2
    · exact inv.lf3
    · exact inv.lf3
    · exact inv.lfs
    · exact inv.hf1
    · exact inv.hf2
    · exact inv.hf3
    · intro hx; exact absurd hx (by simp)
    · intro hu _; exact hfs hu
    · intro hu; exact hfs hu

theorem fetchNextFrame_pres (rd : SrcRead σ) (V : ℚ) (ch : ℕ) (hsrc : ConstSrc rd V ch)
    (r : Resampler σ) (inv : ConstInv V ch r) (hfs : FsAllV V r) :
    ConstInv V ch (Resampler.fetchNextFrame rd r).1 ∧
      FsAllV V (Resampler.fetchNextFrame rd r).1 := by
  obtain ⟨hp, hq⟩ := fetchFrame_pres rd V ch hsrc r inv hfs
  unfold Resampler.fetchNextFrame
  dsimp only
  split
  · exact ⟨inv, hfs⟩
  · split
    · split
      · exact ⟨constInv_set_eof V ch _ true hp, fsAllV_set_eof V _ true hq⟩
      · exact ⟨constInv_set_eof V ch _ true hp, fsAllV_set_eof V _ true hq⟩
    · exact ⟨hp, hq⟩
    · exact ⟨hp, hq⟩

theorem prime0_pres (rd : SrcRead σ) (V : ℚ) (ch : ℕ) (hch0 : 0 < ch)
    (hsrc : ConstSrc rd V ch) (r : Resampler σ) (inv : ConstInv V ch r)
    (hh1 : r.h1 = false) :
    ConstInv V ch (Resampler.prime0 rd r).1 ∧
      (Resampler.prime0 rd r).1.h1 = false ∧
      ((Resampler.prime0 rd r).2 = Status.ok →
        (Resampler.prime0 rd r).1.h0 = true ∧ FsAllV V (Resampler.prime0 rd r).1) := by
  obtain ⟨hvals, hlen⟩ := hsrc r.src
  unfold Resampler.prime0
  dsimp only
  rw [inv.hch]
  split
  · next hpos =>
    have hv : (rd r.src ch).2.1.length = ch := by
      rcases hlen with h | ⟨h0, _⟩
      · exact h
      · omega
    have e0 : goCopy r.f0 (rd r.src ch).2.1 = (rd r.src ch).2.1 :=
      goCopy_eq_of_length _ _ (by rw [inv.lf0, hv])
    have efs : goCopy r.filterState (rd r.src ch).2.1 = (rd r.src ch).2.1 :=
      goCopy_eq_of_length _ _ (by rw [inv.lfs, hv])
    refine ⟨⟨rfl, ?_, inv.lf1, inv.lf2, inv.lf3, ?_, ?_, inv.hf1, inv.hf2, inv.hf3, ?_⟩,
      hh1, ?_⟩
    · rw [e0, hv]
    · split
      · rw [efs, hv]
      · exact inv.lfs
    · intro _; rw [e0]; exact hvals
    · intro _ hx
      rw [hh1] at hx
      exact absurd hx (by simp)
    · intro _
      refine ⟨rfl, ?_⟩
      intro hu
      rw [if_pos hu, efs]
      exact hvals
  · next hpos =>
    refine ⟨⟨rfl, inv.lf0, inv.lf1, inv.lf2, inv.lf3, inv.lfs, inv.hf0, inv.hf1, inv.hf2,
      inv.hf3, inv.hfs⟩, hh1, ?_⟩
    intro hok
    exfalso
    rcases hlen with h | ⟨h0, hne⟩
    · omega
    · exact hne hok

theorem prime1_pres (rd : SrcRead σ) (V : ℚ) (ch : ℕ) (hch0 : 0 < ch)
    (hsrc : ConstSrc rd V ch) (r : Resampler σ) (inv : ConstInv V ch r)
    (hfs : FsAllV V r) :
    ConstInv V ch (Resampler.prime1 rd r).1 ∧ FsAllV V (Resampler.prime1 rd r).1 ∧
      (Resampler.prime1 rd r).1.h0 = r.h0 ∧
      ((Resampler.prime1 rd r).2 = Status.ok → (Resampler.prime1 rd r).1.h1 = true) := by
  obtain ⟨hvals, hlen⟩ := hsrc r.src
  unfold Resampler.prime1
  dsimp only
  rw [inv.hch]
  split
  · next hpos =>
    have hv : (rd r.src ch).2.1.length = ch := by
      rcases hlen with h | ⟨h0, _⟩
      · exact h
      · omega
    have e1 : goCopy r.f1 (rd r.src ch).2.1 = (rd r.src ch).2.1 :=
      goCopy_eq_of_length _ _ (by rw [inv.lf1, hv])
    refine ⟨⟨rfl, inv.lf0, ?_, inv.lf2, inv.lf3, inv.lfs, inv.hf0, ?_, inv.hf2, inv.hf3, ?_⟩,
      hfs, rfl, fun _ => rfl⟩
    · rw [e1, hv]
    · intro _; rw [e1]; exact hvals
    · intro hu _; exact hfs hu
  · next hpos =>
    refine ⟨⟨rfl, inv.lf0, inv.lf1, inv.lf2, inv.lf3, inv.lfs, inv.hf0, inv.hf1, inv.hf2,
      inv.hf3, inv.hfs⟩, hfs, rfl, ?_⟩
    intro hok
    exfalso
    rcases hlen with h | ⟨h0, hne⟩
    · omega
    · exact hne hok

theorem prime2_pres (rd : SrcRead σ) (V : ℚ) (ch : ℕ) (hch0 : 0 < ch)
    (hsrc : ConstSrc rd V ch) (r : Resampler σ) (inv : ConstInv V ch r)
    (hfs : FsAllV V r) :
    ConstInv V ch (Resampler.prime2 rd r).1 ∧ FsAllV V (Resampler.prime2 rd r).1 ∧
      (Resampler.prime2 rd r).1.h1 = r.h1 ∧
      ((Resampler.prime2 rd r).2 = Status.ok → (Resampler.prime2 rd r).1.h2 = true) := by
  obtain ⟨hvals, hlen⟩ := hsrc r.src
  unfold Resampler.prime2
  dsimp only
  rw [inv.hch]
  split
  · next hpos =>
    have hv : (rd r.src ch).2.1.length = ch := by
      rcases hlen with h | ⟨h0, _⟩
      · exact h
      · omega
    have e2 : goCopy r.f2 (rd r.src ch).2.1 = (rd r.src ch).2.1 :=
      goCopy_eq_of_length _ _ (by rw [inv.lf2, hv])
    refine ⟨⟨rfl, inv.lf0, inv.lf1, ?_, inv.lf3, inv.lfs, inv.hf0, inv.hf1, ?_, inv.hf3, ?_⟩,
      hfs, rfl, fun _ => rfl⟩
    · rw [e2, hv]
    · intro _; rw [e2]; exact hvals
    · intro hu _; exact hfs hu
  · next hpos =>
    refine ⟨⟨rfl, inv.lf0, inv.lf1, inv.lf2, inv.lf3, inv.lfs, inv.hf0, inv.hf1, inv.hf2,
      inv.hf3, inv.hfs⟩, hfs, rfl, ?_⟩
    intro hok
    exfalso
    rcases hlen with h | ⟨h0, hne⟩
    · omega
    · exact hne hok

theorem prime3_pres (rd : SrcRead σ) (V : ℚ) (ch : ℕ)
    (hsrc : ConstSrc rd V ch) (r : Resampler σ) (inv : ConstInv V ch r)
    (hfs : FsAllV V r) :
    ConstInv V ch (Resampler.prime3 rd r).1 ∧ FsAllV V (Resampler.prime3 rd r).1 ∧
      (Resampler.prime3 rd r).1.h1 = r.h1 ∧ (Resampler.prime3 rd r).1.h2 = r.h2 := by
  obtain ⟨hvals, hlen⟩ := hsrc r.src
  unfold Resampler.prime3
  dsimp only
  rw [inv.hch]
  split
  · next hpos =>
    have hv : (rd r.src ch).2.1.length = ch := by
      rcases hlen with h | ⟨h0, _⟩
      · exact h
      · omega
    have e3 : goCopy r.f3 (rd r.src ch).2.1 = (rd r.src ch).2.1 :=
      goCopy_eq_of_length _ _ (by rw [inv.lf3, hv])
    refine ⟨⟨rfl, inv.lf0, inv.lf1, inv.lf2, ?_, inv.lfs, inv.hf0, inv.hf1, inv.hf2, ?_, ?_⟩,
      hfs, rfl, rfl⟩
    · rw [e3, hv]
    · intro _; rw [e3]; exact hvals
    · intro hu _; exact hfs hu
  · next hpos =>
    exact ⟨⟨rfl, inv.lf0, inv.lf1, inv.lf2, inv.lf3, inv.lfs, inv.hf0, inv.hf1, inv.hf2,
      inv.hf3, inv.hfs⟩, hfs, rfl, rfl⟩

theorem dup1_pres (V : ℚ) (ch : ℕ) (r : Resampler σ) (inv : ConstInv V ch r)
    (h0 : r.h0 = true) (hfs : FsAllV V r) :
    ConstInv V ch (Resampler.dup1 r) ∧ FsAllV V (Resampler.dup1 r) ∧
      (Resampler.dup1 r).h1 = true := by
  have e1 : goCopy r.f1 r.f0 = r.f0 := goCopy_eq_of_length _ _ (by rw [inv.lf1, inv.lf0])
  have e2 : goCopy r.f2 r.f0 = r.f0 := goCopy_eq_of_length _ _ (by rw [inv.lf2, inv.lf0])
  have e3 : goCopy r.f3 r.f0 = r.f0 := goCopy_eq_of_length _ _ (by rw [inv.lf3, inv.lf0])
  have hv0 := inv.hf0 h0
  unfold Resampler.dup1
  refine ⟨⟨inv.hch, inv.lf0, ?_, ?_, ?_, inv.lfs, inv.hf0, ?_, ?_, ?_, ?_⟩, hfs, rfl⟩
  · rw [e1, inv.lf0]
  · rw [e2, inv.lf0]
  · rw [e3, inv.lf0]
  · intro _; rw [e1]; exact hv0
  · intro _; rw [e2]; exact hv0
  · intro _; rw [e3]; exact hv0
  · intro hu _; exact hfs hu

theorem dup2_pres (V : ℚ) (ch : ℕ) (r : Resampler σ) (inv : ConstInv V ch r)
    (h1 : r.h1 = true) (hfs : FsAllV V r) :
    ConstInv V ch (Resampler.dup2 r) ∧ FsAllV V (Resampler.dup2 r) ∧
      (Resampler.dup2 r).h1 = true := by
  have e2 : goCopy r.f2 r.f1 = r.f1 := goCopy_eq_of_length _ _ (by rw [inv.lf2, inv.lf1])
  have e3 : goCopy r.f3 r.f1 = r.f1 := goCopy_eq_of_length _ _ (by rw [inv.lf3, inv.lf1])
  have hv1 := inv.hf1 h1
  unfold Resampler.dup2
  refine ⟨⟨inv.hch, inv.lf0, inv.lf1, ?_, ?_, inv.lfs, inv.hf0, inv.hf1, ?_, ?_, ?_⟩, hfs, h1⟩
  · rw [e2, inv.lf1]
  · rw [e3, inv.lf1]
  · intro _; rw [e2]; exact hv1
  · intro _; rw [e3]; exact hv1
  · intro hu _; exact hfs hu

theorem dup3_pres (V : ℚ) (ch : ℕ) (r : Resampler σ) (inv : ConstInv V ch r)
    (h1 : r.h1 = true) (h2 : r.h2 = true) (hfs : FsAllV V r) :
    ConstInv V ch (Resampler.dup3 r) ∧ FsAllV V (Resampler.dup3 r) ∧
      (Resampler.dup3 r).h1 = true := by
  have e3 : goCopy r.f3 r.f2 = r.f2 := goCopy_eq_of_length _ _ (by rw [inv.lf3, inv.lf2])
  have hv2 := inv.hf2 h2
  unfold Resampler.dup3
  refine ⟨⟨inv.hch, inv.lf0, inv.lf1, inv.lf2, ?_, inv.lfs, inv.hf0, inv.hf1, inv.hf2, ?_, ?_⟩,
    hfs, h1⟩
  · rw [e3, inv.lf2]
  · intro _; rw [e3]; exact hv2
  · intro hu _; exact hfs hu

theorem prime_pres (rd : SrcRead σ) (V : ℚ) (ch : ℕ) (hch0 : 0 < ch)
    (hsrc : ConstSrc rd V ch) (r : Resampler σ) (inv : ConstInv V ch r)
    (hh1 : r.h1 = false) :
    ConstInv V ch (Resampler.prime rd r).1 ∧
      ((Resampler.prime rd r).2 = none →
        FsAllV V (Resampler.prime rd r).1 ∧ (Resampler.prime rd r).1.h1 = true) := by
  obtain ⟨inv0, hh1', hok0⟩ := prime0_pres rd V ch hch0 hsrc r inv hh1
  unfold Resampler.prime
  dsimp only
  split
  · exact ⟨constInv_set_eof V ch _ true inv0, by simp⟩
  · next hq0 =>
    obtain ⟨hh0, hfs0⟩ := hok0 hq0
    obtain ⟨inv1, hfs1, hh0', hok1⟩ :=
      prime1_pres rd V ch hch0 hsrc (Resampler.prime0 rd r).1 inv0 hfs0
    split
    · next hq1 =>
      obtain ⟨invd, hfsd, hh1d⟩ := dup1_pres V ch _ inv1 (by rw [hh0']; exact hh0) hfs1
      exact ⟨invd, fun _ => ⟨hfsd, hh1d⟩⟩
    · next hq1 =>
      have hh1t := hok1 hq1
      obtain ⟨inv2, hfs2, hh1b, hok2⟩ :=
        prime2_pres rd V ch hch0 hsrc (Resampler.prime1 rd (Resampler.prime0 rd r).1).1
          inv1 hfs1
      split
      · next hq2 =>
        obtain ⟨invd, hfsd, hh1d⟩ := dup2_pres V ch _ inv2 (by rw [hh1b]; exact hh1t) hfs2
        exact ⟨invd, fun _ => ⟨hfsd, hh1d⟩⟩
      · next hq2 =>
        have hh2t := hok2 hq2
        obtain ⟨inv3, hfs3, hh1c, hh2b⟩ :=
          prime3_pres rd V ch hsrc
            (Resampler.prime2 rd (Resampler.prime1 rd (Resampler.prime0 rd r).1).1).1
            inv2 hfs2
        split
        · next hq3 =>
          obtain ⟨invd, hfsd, hh1d⟩ :=
            dup3_pres V ch _ inv3 (by rw [hh1c, hh1b]; exact hh1t)
              (by rw [hh2b]; exact hh2t) hfs3
          exact ⟨invd, fun _ => ⟨hfsd, hh1d⟩⟩
        · next hq3 =>
          exact ⟨inv3, fun _ => ⟨hfs3, by rw [hh1c, hh1b]; exact hh1t⟩⟩
        · next e hq3 =>
          exact ⟨inv3, by simp⟩
      · next e hq2 =>
        exact ⟨inv2, by simp⟩
    · next e hq1 =>
      exact ⟨inv1, by simp⟩
  · next e hq0 =>
    exact ⟨inv0, by simp⟩

theorem constInv_set_pos (V : ℚ) (ch : ℕ) (r : Resampler σ) (p : ℚ)
    (h : ConstInv V ch r) : ConstInv V ch { r with pos := p } :=
  ⟨h.hch, h.lf0, h.lf1, h.lf2, h.lf3, h.lfs, h.hf0, h.hf1, h.hf2, h.hf3, h.hfs⟩

theorem fsAllV_set_pos (V : ℚ) (r : Resampler σ) (p : ℚ)
    (h : FsAllV V r) : FsAllV V { r with pos := p } := h

theorem advanceLoop_pres (rd : SrcRead σ) (V : ℚ) (ch : ℕ) (hsrc : ConstSrc rd V ch)
    (fuel : ℕ) : ∀ r : Resampler σ, ConstInv V ch r → FsAllV V r →
    ConstInv V ch (Resampler.advanceLoop rd fuel r).1 ∧
      FsAllV V (Resampler.advanceLoop rd fuel r).1 := by
  induction fuel with
  | zero => intro r inv hfs; exact ⟨inv, hfs⟩
  | succ fuel ih =>
    intro r inv hfs
    unfold Resampler.advanceLoop
    split
    · dsimp only
      obtain ⟨invf, hfsf⟩ := fetchNextFrame_pres rd V ch hsrc { r with pos := r.pos - 1 }
        (constInv_set_pos V ch r _ inv) (fsAllV_set_pos V r _ hfs)
      split
      · exact ⟨invf, hfsf⟩
      · exact ih _ invf hfsf
    · exact ⟨inv, hfs⟩

theorem interpFrame_allV (V : ℚ) (ch : ℕ) (r : Resampler σ) (inv : ConstInv V ch r)
    (h1 : r.h1 = true) (h2 : r.h2 = true) : AllV V (Resampler.interpFrame r) := by
  intro x hx
  unfold Resampler.interpFrame at hx
  simp only [List.mem_map, List.mem_range] at hx
  obtain ⟨c, hc, rfl⟩ := hx
  have hcch : c < ch := by rwa [inv.hch] at hc
  have hy1 : r.f1.getD c 0 = V := allV_getD V _ (inv.hf1 h1) c (by rw [inv.lf1]; exact hcch)
  have hy2 : r.f2.getD c 0 = V := allV_getD V _ (inv.hf2 h2) c (by rw [inv.lf2]; exact hcch)
  have hy0 : (if r.h0 = true then r.f0.getD c 0 else r.f1.getD c 0) = V := by
    split
    · next hh => exact allV_getD V _ (inv.hf0 hh) c (by rw [inv.lf0]; exact hcch)
    · exact hy1
  have hy3 : (if r.h3 = true then r.f3.getD c 0 else r.f2.getD c 0) = V := by
    split
    · next hh => exact allV_getD V _ (inv.hf3 hh) c (by rw [inv.lf3]; exact hcch)
    · exact hy2
  rw [hy2] at hy3
  rw [hy0, hy1, hy2, hy3]
  exact cubicInterpolate_const V r.pos

theorem produceLoop_pres (rd : SrcRead σ) (V : ℚ) (ch : ℕ) (hsrc : ConstSrc rd V ch)
    (n : ℕ) : ∀ r : Resampler σ, ConstInv V ch r → FsAllV V r →
    ConstInv V ch (Resampler.produceLoop rd n r).1 ∧
      FsAllV V (Resampler.produceLoop rd n r).1 ∧
      AllV V (Resampler.produceLoop rd n r).2.1 := by
  induction n with
  | zero =>
    intro r inv hfs
    exact ⟨inv, hfs, by intro x hx; simp [Resampler.produceLoop] at hx⟩
  | succ n ih =>
    intro r inv hfs
    obtain ⟨inva, hfsa⟩ := advanceLoop_pres rd V ch hsrc (⌈r.pos⌉.toNat) r inv hfs
    unfold Resampler.produceLoop
    rcases hst : (Resampler.advanceLoop rd ⌈r.pos⌉.toNat r).2 with _ | e
    · simp only [hst]
      split
      · next hflags =>
        obtain ⟨hb1, hb2⟩ := Bool.and_eq_true_iff.mp hflags
        obtain ⟨invr, hfsr, hout⟩ :=
          ih _ (constInv_set_pos V ch _ _ inva) (fsAllV_set_pos V _ _ hfsa)
        refine ⟨invr, hfsr, ?_⟩
        intro x hx
        rcases List.mem_append.mp hx with hx | hx
        · exact interpFrame_allV V ch _ inva hb1 hb2 x hx
        · exact hout x hx
      · exact ⟨inva, hfsa, by intro x hx; simp at hx⟩
    · simp only [hst]
      exact ⟨inva, hfsa, by intro x hx; simp at hx⟩

theorem readSamples_pres (rd : SrcRead σ) (V : ℚ) (ch : ℕ) (hch0 : 0 < ch)
    (hsrc : ConstSrc rd V ch) (r : Resampler σ) (inv : ConstInv V ch r)
    (dstLen : ℕ) :
    ConstInv V ch (Resampler.ReadSamples rd r dstLen).1 ∧
      AllV V (Resampler.ReadSamples rd r dstLen).2.1 := by
  unfold Resampler.ReadSamples
  split
  · exact ⟨inv, fun x hx => absurd hx (List.not_mem_nil x)⟩
  · rcases hb : r.h1 with _ | _
    · obtain ⟨invp, hprime⟩ := prime_pres rd V ch hch0 hsrc r inv hb
      simp only [hb, Bool.false_eq_true, if_false]
      rcases hst : (Resampler.prime rd r).2 with _ | e
      · simp only [hst]
        obtain ⟨hfs, hh1'⟩ := hprime hst
        obtain ⟨invl, hfsl, hout⟩ := produceLoop_pres rd V ch hsrc (dstLen / r.channels)
          (Resampler.prime rd r).1 invp hfs
        exact ⟨invl, hout⟩
      · simp only [hst]
        exact ⟨invp, fun x hx => absurd hx (List.not_mem_nil x)⟩
    · have hfs : FsAllV V r := fun hu => inv.hfs hu hb
      simp only [hb, if_true]
      obtain ⟨invl, hfsl, hout⟩ := produceLoop_pres rd V ch hsrc (dstLen / r.channels) r inv hfs
      exact ⟨invl, hout⟩

/-- Run a sequence of `ReadSamples` calls (one entry of `calls` per call,
giving that call's `len(dst)`), concatenating every sample produced. -/
def Resampler.runCalls (rd : SrcRead σ) : Resampler σ → List ℕ → List ℚ
  | _, [] => []
  | r, n :: rest =>
    (Resampler.ReadSamples rd r n).2.1 ++
      Resampler.runCalls rd (Resampler.ReadSamples rd r n).1 rest

theorem runCalls_pres (rd : SrcRead σ) (V : ℚ) (ch : ℕ) (hch0 : 0 < ch)
    (hsrc : ConstSrc rd V ch) (calls : List ℕ) :
    ∀ r : Resampler σ, ConstInv V ch r → AllV V (Resampler.runCalls rd r calls) := by
  induction calls with
  | nil => intro r inv x hx; simp [Resampler.runCalls] at hx
  | cons n rest ih =>
    intro r inv x hx
    obtain ⟨inv', hout⟩ := readSamples_pres rd V ch hch0 hsrc r inv n
    unfold Resampler.runCalls at hx
    rcases List.mem_append.mp hx with hx | hx
    · exact hout x hx
    · exact ih _ inv' x hx

theorem constInv_new (s : σ) (V : ℚ) (srcRate dstRate ch : ℕ) :
    ConstInv V ch (NewResampler s srcRate dstRate ch) := by
  refine ⟨rfl, ?_, ?_, ?_, ?_, ?_, ?_, ?_, ?_, ?_, ?_⟩ <;> simp [NewResampler]

/-- A source over trivial state producing the constant value `V` in every
sample of every channel, always with status OK. -/
def constUnitRead (V : ℚ) : SrcRead Unit := fun s n => (s, List.replicate n V, Status.ok)

theorem constUnitRead_constSrc (V : ℚ) (ch : ℕ) : ConstSrc (constUnitRead V) V ch :=
  fun _ => ⟨fun _ hx => List.eq_of_mem_replicate hx, Or.inl (by simp [constUnitRead])⟩

/-- C6: for every source whose frames all hold the constant value `V` in
every channel (`ConstSrc`), and for every source/target rate pair and
channel count, every sample produced by the resampler across an arbitrary
sequence of `ReadSamples` calls equals `V` exactly (the embedding computes
in exact rational arithmetic, so "within floating-point tolerance" holds
with tolerance zero). -/
theorem C6_constant_source_constant_output (σ : Type) (rd : SrcRead σ) (V : ℚ)
    (ch : ℕ) (hch0 : 0 < ch) (hsrc : ConstSrc rd V ch)
    (s : σ) (srcRate dstRate : ℕ) (calls : List ℕ) :
    AllV V (Resampler.runCalls rd (NewResampler s srcRate dstRate ch) calls) :=
  runCalls_pres rd V ch hch0 hsrc calls _ (constInv_new s V srcRate dstRate ch)

/-- Witness for C6: a concrete constant mono source at value 3/4, a
downsampling 48000 → 8000 resampler and two successive reads of 2 and 3
samples; the hypotheses hold and every output sample is 3/4. -/
theorem C6_constant_source_constant_output_witness :
    0 < 1 ∧ ConstSrc (constUnitRead (3/4)) (3/4) 1 ∧
      AllV (3/4) (Resampler.runCalls (constUnitRead (3/4))
        (NewResampler () 48000 8000 1) [2, 3]) :=
  ⟨Nat.one_pos, constUnitRead_constSrc (3/4) 1,
    C6_constant_source_constant_output Unit (constUnitRead (3/4)) (3/4) 1
      Nat.one_pos (constUnitRead_constSrc (3/4) 1) () 48000 8000 [2, 3]⟩
